import Mathlib

/-!
# Verification of the double-pendulum dynamics engine

Shallow embedding of `src/DoublePendulum.py` (class `DoublePendulum`): the
mass matrix `M`, Coriolis matrix `C`, free-motion acceleration `ddq`, the
unilateral-constraint value `a` and Jacobian `Da`, the impact projector
`Delta`, and the impact map `R`.

Modelling conventions, chosen to follow the Python/numpy/scipy source:

* Scalars are `ℚ`.  The source evaluates with IEEE floats (or sympy
  expressions); the exact-arithmetic model captures the algebra the code
  implements, which is what the specification describes.
* The trigonometric evaluators `cos`, `sin` and `arccos` are pluggable
  function arguments `ℚ → ℚ`, exactly as the source selects between
  `sympy.cos`/`np.cos` etc. via the `symbolic` flag: every statement below
  holds for an arbitrary evaluator.
* `np.arccos` on a scalar does not raise on a domain violation: it returns
  NaN (with a `RuntimeWarning`).  NaN-able scalars are modelled as
  `Option ℚ` with `none` standing for NaN.  A numpy comparison `NaN < 0`
  is `False`, modelled by `ltZero none = false`.
* The quotient `-d/b` in the constraint evaluator is plain Python float
  division (the parameter dict holds plain Python numbers), so `b = 0`
  raises `ZeroDivisionError` before `np.arccos` runs: the constraint
  evaluator is therefore fallible, returning `none` for the raised
  exception and otherwise the vector (whose arccos entry may still be the
  silent NaN of an out-of-domain arccos).
* `scipy.linalg.inv` raises `LinAlgError` on an exactly singular matrix,
  and its LAPACK wrapper rejects the zero-sized `0 × 0` array (scipy of
  the code's era fails on empty arrays), so inversion is modelled as an
  `Option`-valued operation `invN` that is `none` for a singular matrix
  and for the empty matrix.  Functions of the source that can raise are
  `Option`-valued; `none` is the raised exception.
* The source threads opaque `t`, `k` arguments through every method and
  never inspects them; they are omitted.  The unused `dq`, `J`, `p`
  arguments of the individual methods are kept so each embedded function
  has the source's interface.
-/

namespace DoublePendulum

/-- The physical-parameter record `p` of the source (`nominal_parameters`
and the dict keys read by the methods): masses `m0, m1`, lengths `l0, l1`,
restitution `gamma`.  The `symbolic` flag is not represented: it only
selects which `cos`/`sin`/`inverse` evaluator is used, and the evaluators
are explicit function arguments here. -/
structure Params where
  m0 : ℚ
  m1 : ℚ
  l0 : ℚ
  l1 : ℚ
  gamma : ℚ
deriving DecidableEq, Repr

/-- `nominal_parameters` of the source:
`{'m0':1, 'm1':1, 'l0':.5, 'l1':2/7, 'gamma':.3}`. -/
def nominal_parameters : Params :=
  { m0 := 1, m1 := 1, l0 := 1/2, l1 := 2/7, gamma := 3/10 }

/-- Plain Python float division `x / y` (as in `-d/b` of the constraint
evaluator, whose operands are plain Python numbers from the parameter
dict): raises `ZeroDivisionError` when `y = 0`, modelled as `none`;
otherwise the quotient. -/
def fdiv (x y : ℚ) : Option ℚ :=
  if y = 0 then none else some (x / y)

/-- `np.arccos`: NaN (`none`) outside the domain `[-1, 1]`, otherwise the
value of the supplied arccos evaluator. -/
def npArccos (arccos : ℚ → ℚ) (x : ℚ) : Option ℚ :=
  if |x| ≤ 1 then some (arccos x) else none

/-- The numpy elementwise comparison `v < 0` on a NaN-able scalar:
`NaN < 0` is `False`. -/
def ltZero : Option ℚ → Bool
  | some v => decide (v < 0)
  | none => false

/-- `scipy.linalg.inv` on a `2 × 2` matrix: `LinAlgError` (`none`) when
the matrix is exactly singular, otherwise the adjugate-over-determinant
inverse. -/
def inv2 (A : Matrix (Fin 2) (Fin 2) ℚ) : Option (Matrix (Fin 2) (Fin 2) ℚ) :=
  let det := A 0 0 * A 1 1 - A 0 1 * A 1 0
  if det = 0 then none
  else some (Matrix.of ![![A 1 1 / det, -A 0 1 / det], ![-A 1 0 / det, A 0 0 / det]])

/-- `scipy.linalg.inv` on the square matrices this program can produce
(`0 × 0`, `1 × 1`, `2 × 2`).  The LAPACK wrapper of the scipy version the
source targets rejects the zero-sized array, so the `0 × 0` case is a
failure; a singular matrix raises `LinAlgError` (`none`). -/
def invN : (n : ℕ) → Matrix (Fin n) (Fin n) ℚ → Option (Matrix (Fin n) (Fin n) ℚ)
  | 0, _ => none
  | 1, A => if A 0 0 = 0 then none else some (Matrix.of ![![1 / A 0 0]])
  | 2, A => inv2 A
  | _ + 3, _ => none

/-- Method `M(t, k, q, J, p)` of the source: the mass matrix. -/
def M (cos : ℚ → ℚ) (q : Fin 2 → ℚ) (J : Bool × Bool) (p : Params) :
    Matrix (Fin 2) (Fin 2) ℚ :=
  let _ := J
  let a := p.m0 * p.l0 ^ 2 / 3 + p.m1 * p.l1 ^ 2 / 3 + p.m0 * (p.l0 / 2) ^ 2
    + p.m1 * (p.l0 ^ 2 + (p.l1 / 2) ^ 2)
  let b := p.m1 * p.l0 * p.l1 / 2
  let d := p.m1 * p.l1 ^ 2 / 3 + p.m1 * (p.l1 / 2) ^ 2
  let m00 := a + 2 * b * cos (q 1)
  let m10 := d + b * cos (q 1)
  let m11 := d
  Matrix.of ![![m00, m10], ![m10, m11]]

/-- Method `C(t, k, q, dq, J, p)` of the source: the Coriolis matrix. -/
def C (sin : ℚ → ℚ) (q dq : Fin 2 → ℚ) (J : Bool × Bool) (p : Params) :
    Matrix (Fin 2) (Fin 2) ℚ :=
  let _ := J
  let b := p.m1 * p.l0 * p.l1 / 2
  let c00 := -b * sin (q 1) * dq 1
  let c01 := -b * sin (q 1) * (dq 0 + dq 1)
  let c10 := b * sin (q 1) * dq 0
  let c11 := 0
  Matrix.of ![![c00, c01], ![c10, c11]]

/-- Method `ddq(t, k, q, dq, J, p)` of the source: the free-motion
acceleration `Minv @ (-C @ dq)`, with the matrix inversion raising
(`none`) when `M` is singular. -/
def ddq (cos sin : ℚ → ℚ) (q dq : Fin 2 → ℚ) (J : Bool × Bool) (p : Params) :
    Option (Fin 2 → ℚ) :=
  match inv2 (M cos q J p) with
  | none => none
  | some Minv => some (Minv.mulVec ((-(C sin q dq J p)).mulVec dq))

/-- Method `a(t, k, q, dq, J, p)` of the source: the unilateral-constraint
value.  `a[1] = -q[1] + np.arccos(-d/b)`.  The plain-float division
`-d/b` raises `ZeroDivisionError` when `b = 0` (outer `none`: the call
returns no vector at all); otherwise a vector is returned whose second
entry is the silent NaN (inner `none`) when `|-d/b| > 1`, NaN propagating
through the addition. -/
def a (arccos : ℚ → ℚ) (q dq : Fin 2 → ℚ) (J : Bool × Bool) (p : Params) :
    Option (Fin 2 → Option ℚ) :=
  let _ := dq
  let _ := J
  let b := p.m1 * p.l0 * p.l1 / 2
  let d := p.m1 * p.l1 ^ 2 / 3 + p.m1 * (p.l1 / 2) ^ 2
  match fdiv (-d) b with
  | none => none
  | some x => some ![some (q 0 + 0), (npArccos arccos x).map (fun t => -q 1 + t)]

/-- The rows the source's `Da` appends: `[1, 0]` when `J[0]`, then
`[0, -1]` when `J[1]`. -/
def DaRows (J : Bool × Bool) : List (Fin 2 → ℚ) :=
  (cond J.1 [![1, 0]] []) ++ (cond J.2 [![0, -1]] [])

/-- The number of active contacts: the row count of `Da`. -/
def nAct (J : Bool × Bool) : ℕ := (DaRows J).length

/-- Method `Da(t, k, q, dq, J, p)` of the source: the active-constraint
Jacobian, a matrix with `nAct J` rows and `len(q) = 2` columns (the
source reshapes the empty case to `(0, len(q))`). -/
def Da (q dq : Fin 2 → ℚ) (J : Bool × Bool) (p : Params) :
    Matrix (Fin (nAct J)) (Fin 2) ℚ :=
  let _ := q
  let _ := dq
  let _ := p
  Matrix.of fun i j => (DaRows J).get i j

/-- Method `Delta(t, k, q, dq, J, p)` of the source: the impact projector
`np.identity(2) + (1+gamma) * Minv @ Da.T @ Lambda @ Da` with
`Lambda = -inv(Da @ Minv @ Da.T)`; `none` when either inversion raises. -/
def Delta (cos : ℚ → ℚ) (q dq : Fin 2 → ℚ) (J : Bool × Bool) (p : Params) :
    Option (Matrix (Fin 2) (Fin 2) ℚ) :=
  let gamma := p.gamma
  match inv2 (M cos q J p) with
  | none => none
  | some Minv =>
    match invN (nAct J) (Da q dq J p * Minv * (Da q dq J p).transpose) with
    | none => none
    | some Sinv =>
      let Lambda := -Sinv
      some (1 + (1 + gamma) • (Minv * (Da q dq J p).transpose * Lambda * Da q dq J p))

/-- Method `R(t, k, q, dq, J, p)` of the source: the impact map.  It
evaluates `a` (propagating its exception), forms `Jimpact = a < 0`
elementwise, builds the projector from `Jimpact`, and returns
`(q, Delta @ dq, copy.copy(J))`. -/
def R (cos arccos : ℚ → ℚ) (q dq : Fin 2 → ℚ) (J : Bool × Bool) (p : Params) :
    Option ((Fin 2 → ℚ) × (Fin 2 → ℚ) × (Bool × Bool)) :=
  match a arccos q dq J p with
  | none => none
  | some av =>
    let Jimpact : Bool × Bool := (ltZero (av 0), ltZero (av 1))
    match Delta cos q dq Jimpact p with
    | none => none
    | some D => some (q, D.mulVec dq, J)

/-! ### Helper lemmas about the embedded linear algebra -/

/-- A successful `inv2` yields a right inverse. -/
theorem inv2_mul_self {A B : Matrix (Fin 2) (Fin 2) ℚ} (h : inv2 A = some B) :
    A * B = 1 := by
  simp only [inv2] at h
  split_ifs at h with hd
  rw [Option.some_inj] at h
  subst h
  ext i j
  fin_cases i <;> fin_cases j <;>
    (simp [Matrix.mul_apply, Fin.sum_univ_two, Matrix.one_apply]
     field_simp
     ring)

/-- A successful `inv2` yields a left inverse. -/
theorem mul_inv2_self {A B : Matrix (Fin 2) (Fin 2) ℚ} (h : inv2 A = some B) :
    B * A = 1 := by
  simp only [inv2] at h
  split_ifs at h with hd
  rw [Option.some_inj] at h
  subst h
  ext i j
  fin_cases i <;> fin_cases j <;>
    (simp [Matrix.mul_apply, Fin.sum_univ_two, Matrix.one_apply]
     field_simp
     ring)

/-- `inv2` succeeds on any matrix that has a two-sided inverse, and returns
exactly that inverse. -/
theorem inv2_eq_of_inverse {S X : Matrix (Fin 2) (Fin 2) ℚ}
    (h1 : S * X = 1) (h2 : X * S = 1) : inv2 S = some X := by
  have hdet : S 0 0 * S 1 1 - S 0 1 * S 1 0 ≠ 0 := by
    intro h0
    have hd := congrArg Matrix.det h1
    rw [Matrix.det_mul, Matrix.det_one, Matrix.det_fin_two, h0, zero_mul] at hd
    exact zero_ne_one hd
  obtain ⟨Y, hY⟩ : ∃ Y, inv2 S = some Y := by simp [inv2, hdet]
  have hSY := inv2_mul_self hY
  have hYX : Y = X := by
    have hx := congrArg (fun Z => X * Z) hSY
    simp only [← Matrix.mul_assoc, h2, one_mul, mul_one] at hx
    exact hx
  rw [hY, hYX]

/-- A successful `invN` yields a right inverse (for any of the sizes the
program produces). -/
theorem invN_mul_self : ∀ {n : ℕ} {S T : Matrix (Fin n) (Fin n) ℚ},
    invN n S = some T → S * T = 1
  | 0, _, _, h => by simp [invN] at h
  | 1, S, T, h => by
    simp only [invN] at h
    split_ifs at h with h0
    rw [Option.some_inj] at h
    subst h
    ext i j
    fin_cases i <;> fin_cases j <;>
      (simp [Matrix.mul_apply, Matrix.one_apply]
       field_simp)
  | 2, S, T, h => inv2_mul_self h
  | n + 3, _, _, h => by simp [invN] at h

/-- `invN` at size `2` is `inv2`. -/
theorem invN_two (A : Matrix (Fin 2) (Fin 2) ℚ) : invN 2 A = inv2 A := rfl

/-- The constraint Jacobian with both contacts active. -/
theorem Da_tt (q dq : Fin 2 → ℚ) (p : Params) :
    Da q dq (true, true) p = Matrix.of ![![1, 0], ![0, -1]] := by
  ext i j
  fin_cases i <;> fin_cases j <;> rfl

/-- The constraint Jacobian with only contact 0 active. -/
theorem Da_tf (q dq : Fin 2 → ℚ) (p : Params) :
    Da q dq (true, false) p = Matrix.of ![![1, 0]] := by
  ext i j
  fin_cases i <;> fin_cases j <;> rfl

/-- The constraint Jacobian with only contact 1 active. -/
theorem Da_ft (q dq : Fin 2 → ℚ) (p : Params) :
    Da q dq (false, true) p = Matrix.of ![![0, -1]] := by
  ext i j
  fin_cases i <;> fin_cases j <;> rfl

/-- The (square) active-contact Jacobian when both contacts are active. -/
def bothDa : Matrix (Fin 2) (Fin 2) ℚ := Matrix.of ![![1, 0], ![0, -1]]

/-- `Da` with both contacts active is `bothDa`. -/
theorem Da_tt_bothDa (q dq : Fin 2 → ℚ) (p : Params) :
    Da q dq (true, true) p = bothDa :=
  Da_tt q dq p

/-- `bothDa` is symmetric. -/
theorem bothDa_transpose : bothDa.transpose = bothDa := by
  ext i j
  fin_cases i <;> fin_cases j <;> rfl

/-- `bothDa` is an involution: its square is the identity. -/
theorem bothDa_mul_self : bothDa * bothDa = 1 := by
  ext i j
  fin_cases i <;> fin_cases j <;>
    norm_num [bothDa, Matrix.mul_apply, Fin.sum_univ_two, Matrix.one_apply]

/-- With both contacts active the impact projector collapses to `-gamma`
times the identity, independently of the mass matrix: the inner inversion
succeeds (with inverse `bothDa * M * bothDaᵀ`) and the projector formula
telescopes. -/
theorem Delta_both_active (cos : ℚ → ℚ) (q dq : Fin 2 → ℚ) (p : Params)
    (Minv : Matrix (Fin 2) (Fin 2) ℚ)
    (hM : inv2 (M cos q (true, true) p) = some Minv) :
    Delta cos q dq (true, true) p = some ((-p.gamma) • 1) := by
  have hMM : M cos q (true, true) p * Minv = 1 := inv2_mul_self hM
  have hMM2 : Minv * M cos q (true, true) p = 1 := mul_inv2_self hM
  have hS2 : inv2 (bothDa * Minv * bothDa.transpose)
      = some (bothDa * M cos q (true, true) p * bothDa.transpose) := by
    rw [bothDa_transpose]
    apply inv2_eq_of_inverse
    · calc bothDa * Minv * bothDa * (bothDa * M cos q (true, true) p * bothDa)
          = bothDa * (Minv * ((bothDa * bothDa)
            * (M cos q (true, true) p * bothDa))) := by
            simp only [Matrix.mul_assoc]
        _ = 1 := by
            rw [bothDa_mul_self, one_mul,
              ← Matrix.mul_assoc Minv (M cos q (true, true) p) bothDa,
              hMM2, one_mul, bothDa_mul_self]
    · calc bothDa * M cos q (true, true) p * bothDa * (bothDa * Minv * bothDa)
          = bothDa * (M cos q (true, true) p * ((bothDa * bothDa)
            * (Minv * bothDa))) := by
            simp only [Matrix.mul_assoc]
        _ = 1 := by
            rw [bothDa_mul_self, one_mul,
              ← Matrix.mul_assoc (M cos q (true, true) p) Minv bothDa,
              hMM, one_mul, bothDa_mul_self]
  have hS : invN (nAct (true, true))
      (Da q dq (true, true) p * Minv * (Da q dq (true, true) p).transpose)
      = some (bothDa * M cos q (true, true) p * bothDa.transpose) := by
    rw [Da_tt_bothDa]
    exact hS2
  have hG2 : (1 : Matrix (Fin 2) (Fin 2) ℚ) + (1 + p.gamma) • (Minv * bothDa.transpose
      * -(bothDa * M cos q (true, true) p * bothDa.transpose) * bothDa)
      = (-p.gamma) • 1 := by
    rw [bothDa_transpose, Matrix.mul_neg, Matrix.neg_mul]
    have h3 : Minv * bothDa * (bothDa * M cos q (true, true) p * bothDa) * bothDa
        = Minv * ((bothDa * bothDa) * (M cos q (true, true) p
          * (bothDa * bothDa))) := by
      simp only [Matrix.mul_assoc]
    rw [h3, bothDa_mul_self, one_mul, mul_one, hMM2]
    ext i j
    fin_cases i <;> fin_cases j <;>
      simp [Matrix.add_apply, Matrix.smul_apply, Matrix.neg_apply,
        Matrix.one_apply, smul_eq_mul]
  simp only [Delta, hM, hS, Option.some_inj]
  rw [Da_tt_bothDa]
  exact hG2

/-- When `b = 0` the constraint evaluator raises (the division by zero),
returning no vector. -/
theorem a_eq_of_zero (arccos : ℚ → ℚ) (q dq : Fin 2 → ℚ) (J : Bool × Bool)
    (p : Params) (hb : p.m1 * p.l0 * p.l1 / 2 = 0) :
    a arccos q dq J p = none := by
  simp only [a, fdiv]
  rw [if_pos hb]

/-- When `b ≠ 0` the constraint evaluator returns a vector, whose second
entry is the (possibly NaN) arccos term. -/
theorem a_eq_of_ne (arccos : ℚ → ℚ) (q dq : Fin 2 → ℚ) (J : Bool × Bool)
    (p : Params) (hb : p.m1 * p.l0 * p.l1 / 2 ≠ 0) :
    a arccos q dq J p = some ![some (q 0 + 0),
      (npArccos arccos (-(p.m1 * p.l1 ^ 2 / 3 + p.m1 * (p.l1 / 2) ^ 2)
        / (p.m1 * p.l0 * p.l1 / 2))).map (fun t => -q 1 + t)] := by
  simp only [a, fdiv]
  rw [if_neg hb]

/-! ### The claims -/

/-- C5: for every configuration `q` and positive parameters, `M` returns the
matrix `[[a + 2*b*cos(q1), d + b*cos(q1)], [d + b*cos(q1), d]]` with the
spec's `a`, `b`, `d`; it is exactly symmetric (`M[0][1] == M[1][0]`), and
depends on `q` only through `q[1]`. -/
theorem claim_C5 (cos : ℚ → ℚ) (q : Fin 2 → ℚ) (J : Bool × Bool) (p : Params)
    (_hpos : 0 < p.m0 ∧ 0 < p.m1 ∧ 0 < p.l0 ∧ 0 < p.l1) :
    M cos q J p = Matrix.of
      ![![(p.m0 * p.l0 ^ 2 / 3 + p.m1 * p.l1 ^ 2 / 3 + p.m0 * (p.l0 / 2) ^ 2
            + p.m1 * (p.l0 ^ 2 + (p.l1 / 2) ^ 2))
            + 2 * (p.m1 * p.l0 * p.l1 / 2) * cos (q 1),
          (p.m1 * p.l1 ^ 2 / 3 + p.m1 * (p.l1 / 2) ^ 2)
            + (p.m1 * p.l0 * p.l1 / 2) * cos (q 1)],
        ![(p.m1 * p.l1 ^ 2 / 3 + p.m1 * (p.l1 / 2) ^ 2)
            + (p.m1 * p.l0 * p.l1 / 2) * cos (q 1),
          p.m1 * p.l1 ^ 2 / 3 + p.m1 * (p.l1 / 2) ^ 2]] ∧
    M cos q J p 0 1 = M cos q J p 1 0 ∧
    ∀ q2 : Fin 2 → ℚ, q2 1 = q 1 → M cos q2 J p = M cos q J p := by
  refine ⟨rfl, rfl, fun q2 hq => ?_⟩
  simp only [M, hq]

/-- Witness for C5 at the nominal parameters. -/
theorem claim_C5_witness :
    (0 < nominal_parameters.m0 ∧ 0 < nominal_parameters.m1
      ∧ 0 < nominal_parameters.l0 ∧ 0 < nominal_parameters.l1) ∧
    M (fun _ => 1) ![0, 0] (false, false) nominal_parameters 0 1
      = M (fun _ => 1) ![0, 0] (false, false) nominal_parameters 1 0 :=
  ⟨by norm_num [nominal_parameters],
   (claim_C5 (fun _ => 1) ![0, 0] (false, false) nominal_parameters
     (by norm_num [nominal_parameters])).2.1⟩

/-- C7: for every configuration and parameters with `b ≠ 0` and
`|d/b| ≤ 1`, the constraint evaluator returns the length-2 vector with
`a[0] = q[0]` and `a[1] = -q[1] + arccos(-d/b)`. -/
theorem claim_C7 (arccos : ℚ → ℚ) (q dq : Fin 2 → ℚ) (J : Bool × Bool) (p : Params)
    (hb : p.m1 * p.l0 * p.l1 / 2 ≠ 0)
    (hdom : |(p.m1 * p.l1 ^ 2 / 3 + p.m1 * (p.l1 / 2) ^ 2)
      / (p.m1 * p.l0 * p.l1 / 2)| ≤ 1) :
    a arccos q dq J p = some ![some (q 0),
      some (-q 1 + arccos (-((p.m1 * p.l1 ^ 2 / 3
        + p.m1 * (p.l1 / 2) ^ 2) / (p.m1 * p.l0 * p.l1 / 2))))] := by
  have hneg : |(-(p.m1 * p.l1 ^ 2 / 3 + p.m1 * (p.l1 / 2) ^ 2))
      / (p.m1 * p.l0 * p.l1 / 2)| ≤ 1 := by
    rw [neg_div, abs_neg]
    exact hdom
  rw [a_eq_of_ne arccos q dq J p hb, add_zero]
  simp only [npArccos, if_pos hneg, Option.map_some']
  rw [neg_div]

/-- Witness for C7 at the nominal parameters (`d/b = 2/3`). -/
theorem claim_C7_witness :
    (nominal_parameters.m1 * nominal_parameters.l0 * nominal_parameters.l1 / 2 ≠ 0
      ∧ |(nominal_parameters.m1 * nominal_parameters.l1 ^ 2 / 3
          + nominal_parameters.m1 * (nominal_parameters.l1 / 2) ^ 2)
        / (nominal_parameters.m1 * nominal_parameters.l0 * nominal_parameters.l1 / 2)| ≤ 1) ∧
    a (fun _ => 0) ![0, 1] ![0, 0] (false, false) nominal_parameters
      = some ![some (0 : ℚ), some (-(1 : ℚ) + 0)] :=
  ⟨⟨by norm_num [nominal_parameters],
    by rw [abs_le]; constructor <;> norm_num [nominal_parameters]⟩,
   claim_C7 (fun _ => 0) ![0, 1] ![0, 0] (false, false) nominal_parameters
     (by norm_num [nominal_parameters])
     (by rw [abs_le]; constructor <;> norm_num [nominal_parameters])⟩

/-- C8: `Da` appends the row `[1, 0]` when contact 0 is active, then the
row `[0, -1]` when contact 1 is active, in that fixed order; with no
active contact it is the (unique) 0-row matrix with 2 columns, and with
both active it is exactly `[[1, 0], [0, -1]]`. -/
theorem claim_C8 (q dq : Fin 2 → ℚ) (p : Params) :
    nAct (false, false) = 0 ∧
    (∀ A : Matrix (Fin (nAct (false, false))) (Fin 2) ℚ, Da q dq (false, false) p = A) ∧
    Da q dq (true, false) p = Matrix.of ![![1, 0]] ∧
    Da q dq (false, true) p = Matrix.of ![![0, -1]] ∧
    Da q dq (true, true) p = Matrix.of ![![1, 0], ![0, -1]] :=
  ⟨rfl, fun A => by ext i j; exact i.elim0, Da_tf q dq p, Da_ft q dq p, Da_tt q dq p⟩

/-- C4: with zero active contacts the active-contact Jacobian is the
degenerate 0-row matrix, and `Delta` fails rather than returning a
projector: the `0 × 0` product `Da @ inv(M) @ Da.T` is rejected by the
matrix inversion (the scipy of the code's era raises on the zero-sized
array), modelled as the `none` outcome.  All nonempty active sets give a
`Da` with linearly independent rows, so the zero-contact case is the only
rank-deficient one. -/
theorem claim_C4 (cos : ℚ → ℚ) (q dq : Fin 2 → ℚ) (p : Params) :
    Delta cos q dq (false, false) p = none := by
  rcases h : inv2 (M cos q (false, false) p) with _ | Minv <;>
    simp [Delta, h, invN, nAct, DaRows]

/-- C3 as stated is false: with the geometrically impossible parameters
`m1 = 1, l0 = 1/2, l1 = 1` (so `b = 1/4 ≠ 0` and `d/b = 7/3 > 1`) the
constraint evaluator raises nothing — the scalar `np.arccos` only warns —
and silently returns a vector whose second entry is NaN. -/
theorem claim_C3_counterexample :
    a (fun _ => 0) ![0, 0] ![0, 0] (false, false)
      { m0 := 1, m1 := 1, l0 := 1/2, l1 := 1, gamma := 3/10 }
      = some ![some 0, none] := by
  rw [a_eq_of_ne (fun _ => 0) ![0, 0] ![0, 0] (false, false)
    { m0 := 1, m1 := 1, l0 := 1/2, l1 := 1, gamma := 3/10 } (by norm_num)]
  norm_num [npArccos, abs_le]

/-- C3 amended: with `b = 0` (in particular `m1 = 0`) the evaluator does
raise — but a bare `ZeroDivisionError` from the plain-float division,
not `InvalidPhysicalParameters`/`InvalidContactGeometry` (no such error
classes exist in the code); and with `b ≠ 0` and `|d/b| > 1` it raises
nothing, silently returning `a[0] = q[0]` with `a[1] = NaN`. -/
theorem claim_C3_amended (arccos : ℚ → ℚ) (q dq : Fin 2 → ℚ) (J : Bool × Bool)
    (p : Params) :
    (p.m1 * p.l0 * p.l1 / 2 = 0 → a arccos q dq J p = none) ∧
    (p.m1 * p.l0 * p.l1 / 2 ≠ 0 →
      1 < |(p.m1 * p.l1 ^ 2 / 3 + p.m1 * (p.l1 / 2) ^ 2)
        / (p.m1 * p.l0 * p.l1 / 2)| →
      a arccos q dq J p = some ![some (q 0), none]) := by
  constructor
  · intro hb
    exact a_eq_of_zero arccos q dq J p hb
  · intro hb hd
    have hgt : ¬ |(-(p.m1 * p.l1 ^ 2 / 3 + p.m1 * (p.l1 / 2) ^ 2))
        / (p.m1 * p.l0 * p.l1 / 2)| ≤ 1 := by
      rw [neg_div, abs_neg]
      exact not_le.mpr hd
    rw [a_eq_of_ne arccos q dq J p hb, add_zero]
    simp only [npArccos, if_neg hgt]
    rfl

/-- Witness for the amended C3: at `m1 = 0` the evaluator raises (returns
no vector); at the `|d/b| = 7/3 > 1` geometry it silently returns a
vector with NaN in the second entry. -/
theorem claim_C3_witness :
    (({ m0 := 1, m1 := 0, l0 := 1/2, l1 := 2/7, gamma := 3/10 : Params }.m1
        * { m0 := 1, m1 := 0, l0 := 1/2, l1 := 2/7, gamma := 3/10 : Params }.l0
        * { m0 := 1, m1 := 0, l0 := 1/2, l1 := 2/7, gamma := 3/10 : Params }.l1 / 2 = 0) ∧
      a (fun _ => 0) ![3, 0] ![0, 0] (false, false)
        { m0 := 1, m1 := 0, l0 := 1/2, l1 := 2/7, gamma := 3/10 } = none) ∧
    (({ m0 := 1, m1 := 1, l0 := 1/2, l1 := 1, gamma := 3/10 : Params }.m1
        * { m0 := 1, m1 := 1, l0 := 1/2, l1 := 1, gamma := 3/10 : Params }.l0
        * { m0 := 1, m1 := 1, l0 := 1/2, l1 := 1, gamma := 3/10 : Params }.l1 / 2 ≠ 0
        ∧ 1 < |({ m0 := 1, m1 := 1, l0 := 1/2, l1 := 1, gamma := 3/10 : Params }.m1
            * { m0 := 1, m1 := 1, l0 := 1/2, l1 := 1, gamma := 3/10 : Params }.l1 ^ 2 / 3
            + { m0 := 1, m1 := 1, l0 := 1/2, l1 := 1, gamma := 3/10 : Params }.m1
            * ({ m0 := 1, m1 := 1, l0 := 1/2, l1 := 1, gamma := 3/10 : Params }.l1 / 2) ^ 2)
          / ({ m0 := 1, m1 := 1, l0 := 1/2, l1 := 1, gamma := 3/10 : Params }.m1
            * { m0 := 1, m1 := 1, l0 := 1/2, l1 := 1, gamma := 3/10 : Params }.l0
            * { m0 := 1, m1 := 1, l0 := 1/2, l1 := 1, gamma := 3/10 : Params }.l1 / 2)|) ∧
      a (fun _ => 0) ![3, 0] ![0, 0] (false, false)
        { m0 := 1, m1 := 1, l0 := 1/2, l1 := 1, gamma := 3/10 }
        = some ![some (3 : ℚ), none]) :=
  ⟨⟨by norm_num,
    (claim_C3_amended (fun _ => 0) ![3, 0] ![0, 0] (false, false)
      { m0 := 1, m1 := 0, l0 := 1/2, l1 := 2/7, gamma := 3/10 }).1 (by norm_num)⟩,
   ⟨⟨by norm_num, by rw [lt_abs]; exact Or.inl (by norm_num)⟩,
    (claim_C3_amended (fun _ => 0) ![3, 0] ![0, 0] (false, false)
      { m0 := 1, m1 := 1, l0 := 1/2, l1 := 1, gamma := 3/10 }).2 (by norm_num)
      (by rw [lt_abs]; exact Or.inl (by norm_num))⟩⟩

/-- The inverse of the nominal-parameter mass matrix under the constant
evaluator `cos ≡ 1` (any configuration, any active set, any restitution):
`M = [[197/336, 5/42], [5/42, 1/21]]`, `M⁻¹ = [[336/97, -840/97],
[-840/97, 4137/97]]`. -/
theorem inv2_M_nominal (q : Fin 2 → ℚ) (J : Bool × Bool) (g : ℚ) :
    inv2 (M (fun _ => 1) q J { m0 := 1, m1 := 1, l0 := 1/2, l1 := 2/7, gamma := g })
      = some (Matrix.of ![![336/97, -840/97], ![-840/97, 4137/97]]) := by
  apply inv2_eq_of_inverse <;>
    (ext i j
     fin_cases i <;> fin_cases j <;>
       norm_num [M, Matrix.mul_apply, Fin.sum_univ_two, Matrix.one_apply])

/-- At `q = (-1, 1)`, nominal parameters and the evaluator `arccos ≡ 0`,
the constraint evaluation succeeds and both constraint values are `-1`. -/
theorem a_nominal_neg :
    a (fun _ => 0) ![(-1 : ℚ), 1] ![2, 3] (false, false) nominal_parameters
      = some ![some (-1 : ℚ), some (-1)] := by
  rw [a_eq_of_ne (fun _ => 0) ![(-1 : ℚ), 1] ![2, 3] (false, false)
    nominal_parameters (by norm_num [nominal_parameters])]
  norm_num [npArccos, abs_le, nominal_parameters]

/-- Both entries of the constraint vector `(-1, -1)` are negative, so the
impact set formed from it is `(true, true)`. -/
theorem ltZero_pair_neg :
    (ltZero ((![some (-1 : ℚ), some (-1)]) 0),
      ltZero ((![some (-1 : ℚ), some (-1)]) 1)) = (true, true) := by
  norm_num [ltZero]

/-- C1: for every input on which the constraint evaluation and the
projector's inversions succeed, `R` evaluates the constraint value
`a(q)`, forms the impact set `a < 0` elementwise, builds `Delta` from
that impact set, and returns exactly `q' = q`, `dq' = Delta · dq`, and
`J'` equal to (a copy of) the input active set `J` — not the locally
computed impact set. -/
theorem claim_C1 (cos arccos : ℚ → ℚ) (q dq : Fin 2 → ℚ) (J : Bool × Bool)
    (p : Params) (av : Fin 2 → Option ℚ) (D : Matrix (Fin 2) (Fin 2) ℚ)
    (hav : a arccos q dq J p = some av)
    (hD : Delta cos q dq (ltZero (av 0), ltZero (av 1)) p = some D) :
    R cos arccos q dq J p = some (q, D.mulVec dq, J) := by
  simp only [R, hav, hD]

/-- Witness for C1: at nominal parameters, `q = (-1, 1)`, `dq = (2, 3)`,
input active set `(false, false)`, the impact set is `(true, true)`, the
projector is `-gamma` times the identity, and `R` returns the input active
set `(false, false)` — visibly not the impact set used for the projector. -/
theorem claim_C1_witness :
    a (fun _ => 0) ![(-1 : ℚ), 1] ![2, 3] (false, false) nominal_parameters
      = some ![some (-1 : ℚ), some (-1)] ∧
    Delta (fun _ => 1) ![(-1 : ℚ), 1] ![2, 3]
        (ltZero ((![some (-1 : ℚ), some (-1)]) 0),
          ltZero ((![some (-1 : ℚ), some (-1)]) 1))
        nominal_parameters
      = some ((-(3/10 : ℚ)) • 1) ∧
    R (fun _ => 1) (fun _ => 0) ![(-1 : ℚ), 1] ![2, 3] (false, false) nominal_parameters
      = some (![(-1 : ℚ), 1],
          ((-(3/10 : ℚ)) • (1 : Matrix (Fin 2) (Fin 2) ℚ)).mulVec ![2, 3],
          (false, false)) := by
  have hD : Delta (fun _ => 1) ![(-1 : ℚ), 1] ![2, 3]
      (ltZero ((![some (-1 : ℚ), some (-1)]) 0),
        ltZero ((![some (-1 : ℚ), some (-1)]) 1))
      nominal_parameters = some ((-(3/10 : ℚ)) • 1) := by
    rw [ltZero_pair_neg]
    exact Delta_both_active (fun _ => 1) ![(-1 : ℚ), 1] ![2, 3] nominal_parameters _
      (inv2_M_nominal ![(-1 : ℚ), 1] (true, true) (3/10))
  exact ⟨a_nominal_neg, hD, claim_C1 _ _ _ _ _ _ _ _ a_nominal_neg hD⟩

/-- C2: whenever both inversions succeed, the impact projector is exactly
`I + (1+gamma) · M⁻¹ · Daᵀ · Lambda · Da` with
`Lambda = -(Da · M⁻¹ · Daᵀ)⁻¹`. -/
theorem claim_C2 (cos : ℚ → ℚ) (q dq : Fin 2 → ℚ) (J : Bool × Bool) (p : Params)
    (Minv : Matrix (Fin 2) (Fin 2) ℚ)
    (Sinv : Matrix (Fin (nAct J)) (Fin (nAct J)) ℚ)
    (hM : inv2 (M cos q J p) = some Minv)
    (hS : invN (nAct J) (Da q dq J p * Minv * (Da q dq J p).transpose) = some Sinv) :
    Delta cos q dq J p = some (1 + (1 + p.gamma)
      • (Minv * (Da q dq J p).transpose * -Sinv * Da q dq J p)) := by
  simp only [Delta, hM, hS]

/-- Witness for C2 at nominal parameters with both contacts active. -/
theorem claim_C2_witness :
    inv2 (M (fun _ => 1) ![(0 : ℚ), 0] (true, true) nominal_parameters)
      = some (Matrix.of ![![336/97, -840/97], ![-840/97, 4137/97]]) ∧
    invN (nAct (true, true))
      (Da ![(0 : ℚ), 0] ![2, 3] (true, true) nominal_parameters
        * (Matrix.of ![![(336 : ℚ)/97, -840/97], ![-840/97, 4137/97]]
            : Matrix (Fin 2) (Fin 2) ℚ)
        * (Da ![(0 : ℚ), 0] ![2, 3] (true, true) nominal_parameters).transpose)
      = some (Matrix.of ![![197/336, -5/42], ![-5/42, 1/21]]) ∧
    Delta (fun _ => 1) ![(0 : ℚ), 0] ![2, 3] (true, true) nominal_parameters
      = some (1 + (1 + nominal_parameters.gamma)
        • ((Matrix.of ![![(336 : ℚ)/97, -840/97], ![-840/97, 4137/97]]
            : Matrix (Fin 2) (Fin 2) ℚ)
          * (Da ![(0 : ℚ), 0] ![2, 3] (true, true) nominal_parameters).transpose
          * -(Matrix.of ![![(197 : ℚ)/336, -5/42], ![-5/42, 1/21]]
              : Matrix (Fin (nAct (true, true))) (Fin (nAct (true, true))) ℚ)
          * Da ![(0 : ℚ), 0] ![2, 3] (true, true) nominal_parameters)) := by
  have hM : inv2 (M (fun _ => 1) ![(0 : ℚ), 0] (true, true) nominal_parameters)
      = some (Matrix.of ![![336/97, -840/97], ![-840/97, 4137/97]]) :=
    inv2_M_nominal ![(0 : ℚ), 0] (true, true) (3/10)
  have hS2 : inv2 (bothDa * Matrix.of ![![(336 : ℚ)/97, -840/97], ![-840/97, 4137/97]]
      * bothDa.transpose)
      = some (Matrix.of ![![(197 : ℚ)/336, -5/42], ![-5/42, 1/21]]) := by
    rw [bothDa_transpose]
    apply inv2_eq_of_inverse <;>
      (ext i j
       fin_cases i <;> fin_cases j <;>
         norm_num [bothDa, Matrix.mul_apply, Fin.sum_univ_two, Matrix.one_apply])
  have hS : invN (nAct (true, true))
      (Da ![(0 : ℚ), 0] ![2, 3] (true, true) nominal_parameters
        * (Matrix.of ![![(336 : ℚ)/97, -840/97], ![-840/97, 4137/97]]
            : Matrix (Fin 2) (Fin 2) ℚ)
        * (Da ![(0 : ℚ), 0] ![2, 3] (true, true) nominal_parameters).transpose)
      = some (Matrix.of ![![197/336, -5/42], ![-5/42, 1/21]]) := by
    rw [Da_tt_bothDa]
    exact hS2
  exact ⟨hM, hS, claim_C2 _ _ _ _ _ _ _ hM hS⟩

/-- C6: whenever the mass-matrix inversion succeeds, `ddq` returns
`M⁻¹ · (-C · dq)` (direct inversion), and that vector satisfies the
unconstrained equation `M · ddq = -C · dq`. -/
theorem claim_C6 (cos sin : ℚ → ℚ) (q dq : Fin 2 → ℚ) (J : Bool × Bool) (p : Params)
    (Minv : Matrix (Fin 2) (Fin 2) ℚ)
    (hM : inv2 (M cos q J p) = some Minv) :
    ddq cos sin q dq J p
      = some (Minv.mulVec ((-(C sin q dq J p)).mulVec dq)) ∧
    (M cos q J p).mulVec (Minv.mulVec ((-(C sin q dq J p)).mulVec dq))
      = -((C sin q dq J p).mulVec dq) := by
  constructor
  · simp only [ddq, hM]
  · rw [Matrix.mulVec_mulVec, inv2_mul_self hM, Matrix.one_mulVec,
      Matrix.neg_mulVec]

/-- Witness for C6 at nominal parameters. -/
theorem claim_C6_witness :
    inv2 (M (fun _ => 1) ![(0 : ℚ), 0] (false, false) nominal_parameters)
      = some (Matrix.of ![![336/97, -840/97], ![-840/97, 4137/97]]) ∧
    ddq (fun _ => 1) (fun _ => 1) ![(0 : ℚ), 0] ![2, 3] (false, false) nominal_parameters
      = some ((Matrix.of ![![(336 : ℚ)/97, -840/97], ![-840/97, 4137/97]]).mulVec
          ((-(C (fun _ => 1) ![(0 : ℚ), 0] ![2, 3] (false, false)
            nominal_parameters)).mulVec ![2, 3])) ∧
    (M (fun _ => 1) ![(0 : ℚ), 0] (false, false) nominal_parameters).mulVec
        ((Matrix.of ![![(336 : ℚ)/97, -840/97], ![-840/97, 4137/97]]).mulVec
          ((-(C (fun _ => 1) ![(0 : ℚ), 0] ![2, 3] (false, false)
            nominal_parameters)).mulVec ![2, 3]))
      = -((C (fun _ => 1) ![(0 : ℚ), 0] ![2, 3] (false, false)
          nominal_parameters).mulVec ![2, 3]) := by
  have hM : inv2 (M (fun _ => 1) ![(0 : ℚ), 0] (false, false) nominal_parameters)
      = some (Matrix.of ![![336/97, -840/97], ![-840/97, 4137/97]]) :=
    inv2_M_nominal ![(0 : ℚ), 0] (false, false) (3/10)
  obtain ⟨h1, h2⟩ := claim_C6 (fun _ => 1) (fun _ => 1) ![(0 : ℚ), 0] ![2, 3]
    (false, false) nominal_parameters _ hM
  exact ⟨hM, h1, h2⟩

/-- C9: with `gamma = 0`, whenever the projector is defined it kills the
velocity component along every active constraint direction:
`Da · (Delta · dq) = 0` (for every `dq`, in particular those for which the
post-impact state respects the active constraints). -/
theorem claim_C9 (cos : ℚ → ℚ) (q dq : Fin 2 → ℚ) (J : Bool × Bool) (p : Params)
    (D : Matrix (Fin 2) (Fin 2) ℚ) (hgamma : p.gamma = 0)
    (hD : Delta cos q dq J p = some D) :
    (Da q dq J p).mulVec (D.mulVec dq) = 0 := by
  rcases hM : inv2 (M cos q J p) with _ | Minv
  · simp only [Delta, hM] at hD
    exact Option.noConfusion hD
  rcases hS : invN (nAct J) (Da q dq J p * Minv * (Da q dq J p).transpose)
    with _ | Sinv
  · simp only [Delta, hM, hS] at hD
    exact Option.noConfusion hD
  simp only [Delta, hM, hS, Option.some_inj] at hD
  subst hD
  rw [Matrix.mulVec_mulVec]
  have hkey : Da q dq J p * (1 + (1 + p.gamma)
      • (Minv * (Da q dq J p).transpose * -Sinv * Da q dq J p)) = 0 := by
    rw [hgamma, add_zero, one_smul, Matrix.mul_add, Matrix.mul_one]
    have hassoc : Da q dq J p * (Minv * (Da q dq J p).transpose * -Sinv * Da q dq J p)
        = Da q dq J p * Minv * (Da q dq J p).transpose * -Sinv * Da q dq J p := by
      simp only [Matrix.mul_assoc]
    rw [hassoc, Matrix.mul_neg, invN_mul_self hS, Matrix.neg_mul, Matrix.one_mul]
    simp
  rw [hkey, Matrix.zero_mulVec]

/-- Witness for C9: nominal geometry with `gamma = 0`, both contacts
active; the projector is the zero matrix and the constraint-space
velocity vanishes. -/
theorem claim_C9_witness :
    ({ m0 := 1, m1 := 1, l0 := 1/2, l1 := 2/7, gamma := 0 : Params }.gamma = 0) ∧
    Delta (fun _ => 1) ![(0 : ℚ), 0] ![2, 3] (true, true)
        { m0 := 1, m1 := 1, l0 := 1/2, l1 := 2/7, gamma := 0 }
      = some ((-(0 : ℚ)) • 1) ∧
    (Da ![(0 : ℚ), 0] ![2, 3] (true, true)
        { m0 := 1, m1 := 1, l0 := 1/2, l1 := 2/7, gamma := 0 }).mulVec
      (((-(0 : ℚ)) • (1 : Matrix (Fin 2) (Fin 2) ℚ)).mulVec ![2, 3]) = 0 := by
  have hD : Delta (fun _ => 1) ![(0 : ℚ), 0] ![2, 3] (true, true)
      { m0 := 1, m1 := 1, l0 := 1/2, l1 := 2/7, gamma := 0 }
      = some ((-(0 : ℚ)) • 1) :=
    Delta_both_active (fun _ => 1) ![(0 : ℚ), 0] ![2, 3]
      { m0 := 1, m1 := 1, l0 := 1/2, l1 := 2/7, gamma := 0 } _
      (inv2_M_nominal ![(0 : ℚ), 0] (true, true) 0)
  exact ⟨rfl, hD,
    claim_C9 (fun _ => 1) ![(0 : ℚ), 0] ![2, 3] (true, true)
      { m0 := 1, m1 := 1, l0 := 1/2, l1 := 2/7, gamma := 0 } _ rfl hD⟩

/-- C10: when both contacts are active the projector collapses to
`-gamma` times the identity (independently of the mass matrix), and when
the impact set computed inside `R` is `(true, true)` the post-impact
velocity is `dq' = -gamma · dq`. -/
theorem claim_C10 (cos arccos : ℚ → ℚ) (q dq : Fin 2 → ℚ) (J : Bool × Bool)
    (p : Params) (av : Fin 2 → Option ℚ) (Minv : Matrix (Fin 2) (Fin 2) ℚ)
    (hM : inv2 (M cos q (true, true) p) = some Minv)
    (hav : a arccos q dq J p = some av)
    (himp : (ltZero (av 0), ltZero (av 1)) = (true, true)) :
    Delta cos q dq (true, true) p = some ((-p.gamma) • 1) ∧
    R cos arccos q dq J p = some (q, (-p.gamma) • dq, J) := by
  have h1 := Delta_both_active cos q dq p Minv hM
  refine ⟨h1, ?_⟩
  simp only [R, hav]
  rw [himp, h1]
  simp [Matrix.smul_mulVec_assoc, Matrix.one_mulVec, Matrix.neg_mulVec]

/-- Witness for C10 at nominal parameters: the projector is
`-3/10` times the identity and `R` scales the velocity by `-3/10`. -/
theorem claim_C10_witness :
    inv2 (M (fun _ => 1) ![(-1 : ℚ), 1] (true, true) nominal_parameters)
      = some (Matrix.of ![![336/97, -840/97], ![-840/97, 4137/97]]) ∧
    a (fun _ => 0) ![(-1 : ℚ), 1] ![2, 3] (false, false) nominal_parameters
      = some ![some (-1 : ℚ), some (-1)] ∧
    (ltZero ((![some (-1 : ℚ), some (-1)]) 0),
      ltZero ((![some (-1 : ℚ), some (-1)]) 1)) = (true, true) ∧
    Delta (fun _ => 1) ![(-1 : ℚ), 1] ![2, 3] (true, true) nominal_parameters
      = some ((-(3/10 : ℚ)) • 1) ∧
    R (fun _ => 1) (fun _ => 0) ![(-1 : ℚ), 1] ![2, 3] (false, false) nominal_parameters
      = some (![(-1 : ℚ), 1], (-(3/10 : ℚ)) • ![2, 3], (false, false)) := by
  have hM : inv2 (M (fun _ => 1) ![(-1 : ℚ), 1] (true, true) nominal_parameters)
      = some (Matrix.of ![![336/97, -840/97], ![-840/97, 4137/97]]) :=
    inv2_M_nominal ![(-1 : ℚ), 1] (true, true) (3/10)
  obtain ⟨h1, h2⟩ := claim_C10 (fun _ => 1) (fun _ => 0) ![(-1 : ℚ), 1] ![2, 3]
    (false, false) nominal_parameters _ _ hM a_nominal_neg ltZero_pair_neg
  exact ⟨hM, a_nominal_neg, ltZero_pair_neg, h1, h2⟩

end DoublePendulum
